import Mathlib

/-!
Verification development for the package-migration actions repository
(shared retry executor, resource tracker, per-kind migration pipelines,
result aggregation).  Each definition is a shallow embedding of one
function of the JavaScript sources; effectful operations are modelled by
explicit oracles (an operation is a function from the attempt number to
its outcome, the filesystem is an explicit state, HTTP responses are
`Except` values).
-/

set_option autoImplicit false

/-! ## Error model

The sources classify JavaScript errors by their class
(`errors.AuthenticationError`, `errors.PackageNotFoundError`, anything
else) and carry a message string. -/

/-- Classification of a thrown JavaScript error: an authentication
error (`errors.AuthenticationError`, HTTP 401/403-equivalent), a
not-found error (`errors.PackageNotFoundError`, HTTP 404-equivalent), or
any other error (network resets, timeouts, DNS failures, 5xx, plain
`Error`). -/
inductive ErrClass where
  | auth
  | notFound
  | other
  deriving DecidableEq, Repr

/-- A thrown JavaScript error: its class and its `message`. -/
structure JsError where
  cls : ErrClass
  msg : String
  deriving DecidableEq, Repr

/-- Embeds the permanent-error test of `withRetry` (shared utils,
src/unnamed/part_004): `error instanceof errors.AuthenticationError ||
error instanceof errors.PackageNotFoundError`. -/
def isPermanentError (e : JsError) : Bool :=
  match e.cls with
  | ErrClass.auth => true
  | ErrClass.notFound => true
  | ErrClass.other => false

/-! ## Retry executor (`withRetry`, built on `p-retry`)

An asynchronous zero-argument operation is modelled as a function from
the attempt number (starting at 1) to that attempt's outcome.  The trace
records the final settled result, how many times the operation was
invoked, how many times the `onFailedAttempt`/`onRetry` observer ran,
and the list of backoff sleeps performed. -/

/-- Observable trace of one `withRetry` call. -/
structure RetryTrace (α : Type) where
  result : Except JsError α
  calls : Nat
  onRetryCalls : Nat
  delays : List Nat
  deriving Repr

/-- Backoff sleep (ms) performed after failed attempt `n` by the `retry`
library: `min(maxTimeout, minTimeout * factor^(n-1))`. -/
def backoffDelay (minTimeout maxTimeout factor n : Nat) : Nat :=
  min maxTimeout (minTimeout * factor ^ (n - 1))

/-- Embeds the `p-retry` loop: run the operation; a rejection for which
`shouldAbort` holds (an `AbortError` thrown by the wrapper) settles
immediately with a fresh plain error carrying the same message (p-retry
rejects with `new Error(message)` when `AbortError` was built from a
string) and does not run `onFailedAttempt`; any other rejection runs
`onFailedAttempt`, and either consumes one retry (sleeping the backoff
delay) or, when no retries remain, settles with that error. -/
def pRetryRun {α : Type} (shouldAbort : JsError → Bool)
    (minTimeout maxTimeout factor : Nat) :
    Nat → Nat → (Nat → Except JsError α) → RetryTrace α
  | retriesLeft, attempt, op =>
    match op attempt with
    | Except.ok v => ⟨Except.ok v, 1, 0, []⟩
    | Except.error e =>
      if shouldAbort e then
        ⟨Except.error ⟨ErrClass.other, e.msg⟩, 1, 0, []⟩
      else
        match retriesLeft with
        | 0 => ⟨Except.error e, 1, 1, []⟩
        | r + 1 =>
          let t := pRetryRun shouldAbort minTimeout maxTimeout factor r (attempt + 1) op
          ⟨t.result, t.calls + 1, t.onRetryCalls + 1,
            backoffDelay minTimeout maxTimeout factor attempt :: t.delays⟩

/-- Retry options of the shared `withRetry` (`DEFAULT_RETRY_CONFIG`
merged with the caller's options). -/
structure RetryConfig where
  retries : Nat
  minTimeout : Nat
  maxTimeout : Nat
  factor : Nat
  deriving Repr

/-- Embeds `DEFAULT_RETRY_CONFIG` of the shared utils
(src/unnamed/part_004): 3 retries, 1s/10s delay bounds, factor 2. -/
def DEFAULT_RETRY_CONFIG : RetryConfig := ⟨3, 1000, 10000, 2⟩

/-- Embeds `withRetry` of the shared utils (src/unnamed/part_004, lines
289-329): wraps the operation so that an `AuthenticationError` or
`PackageNotFoundError` is converted to a `pRetry.AbortError` (no retry);
every other error is retried by `p-retry` up to `config.retries` extra
attempts with exponential backoff. -/
def withRetry {α : Type} (config : RetryConfig) (op : Nat → Except JsError α) :
    RetryTrace α :=
  pRetryRun isPermanentError config.minTimeout config.maxTimeout config.factor
    config.retries 1 op

/-- Embeds the earlier `withRetry` variant (src/unnamed/part_005, lines
46-64): passes the operation to `p-retry` directly, with no
permanent-error classification at all (the `retry` library's default
factor is 2). -/
def withRetryLegacy {α : Type} (retries minTimeout maxTimeout : Nat)
    (op : Nat → Except JsError α) : RetryTrace α :=
  pRetryRun (fun _ => false) minTimeout maxTimeout 2 retries 1 op

/-! ## Package results

`createPackageResult` (shared utils, src/unnamed/part_004, lines
497-522) assembles the per-package result object; optional fields that
the JavaScript object simply lacks are modelled with `Option`. -/

/-- Options bag passed to `createPackageResult`; `none` models an
`undefined` field. -/
structure ResultOptions where
  skipped : Bool
  reason : Option String
  digestsSucceeded : Option Nat
  digestsFailed : Option Nat
  tagsSucceeded : Option Nat
  tagsFailed : Option Nat
  deriving DecidableEq, Repr

/-- The empty options object `{}`. -/
def noResultOptions : ResultOptions := ⟨false, none, none, none, none, none⟩

/-- A per-package migration result. -/
structure PackageResult where
  package : String
  succeeded : Nat
  failed : Nat
  skipped : Bool
  reason : Option String
  digestsSucceeded : Option Nat
  digestsFailed : Option Nat
  tagsSucceeded : Option Nat
  tagsFailed : Option Nat
  deriving DecidableEq, Repr

/-- Embeds `createPackageResult` (src/unnamed/part_004, lines 497-522):
adds `skipped`/`reason` when `options.skipped` is set (defaulting the
reason to "No versions found"), and the digest/tag buckets when their
succeeded counter is provided (`|| 0` on the failed counter). -/
def createPackageResult (packageName : String) (succeeded failed : Nat)
    (options : ResultOptions) : PackageResult where
  package := packageName
  succeeded := succeeded
  failed := failed
  skipped := options.skipped
  reason := if options.skipped then some (options.reason.getD "No versions found") else none
  digestsSucceeded := options.digestsSucceeded
  digestsFailed :=
    if options.digestsSucceeded.isSome then some (options.digestsFailed.getD 0) else none
  tagsSucceeded := options.tagsSucceeded
  tagsFailed :=
    if options.tagsSucceeded.isSome then some (options.tagsFailed.getD 0) else none

/-! ## npm package migrator (src/unnamed/part_013)

`migratePackage` enumerates the versions of one npm package and calls
`migrateVersion` (a `withRetry`-wrapped `processPackageVersion`) for
each.  The outcome of the i-th version's transfer is abstracted as a
boolean oracle. -/

/-- Embeds `buildSkipResult` of the npm action (src/unnamed/part_013,
lines 34-39). -/
def buildSkipResult (packageName : String) : PackageResult :=
  createPackageResult packageName 0 0 ⟨true, some "No versions found", none, none, none, none⟩

/-- Embeds the success/failure tally loop of `migratePackage`
(src/unnamed/part_013, lines 247-253): each `true` outcome bumps
`successCount`, each `false` outcome bumps `failureCount`. -/
def tallyVersions (outcomes : List Bool) : Nat × Nat :=
  outcomes.foldl
    (fun acc success => cond success (acc.1 + 1, acc.2) (acc.1, acc.2 + 1)) (0, 0)

/-- Embeds `migratePackage` of the npm action (src/unnamed/part_013,
lines 230-256): with no versions it returns the skip result; otherwise
it attempts every version and tallies the boolean outcomes.
`migrateVersion i` is the collapsed outcome of the i-th version's
retry-wrapped transfer. -/
def migratePackageNpm (packageName : String) (versionNames : List String)
    (migrateVersion : Nat → Bool) : PackageResult :=
  if versionNames.length = 0 then buildSkipResult packageName
  else
    let outcomes := (List.range versionNames.length).map migrateVersion
    let t := tallyVersions outcomes
    createPackageResult packageName t.1 t.2 noResultOptions

/-! ## Container package migrator
(src/migrate-container-packages-action/src/docker.js and
src/unnamed/part_007) -/

/-- One entry of the version list returned by the packages API for a
container package: `name` is the content digest, and
`metadata.container.tags` is modelled as `Option` (absent chain =
`none`). -/
structure ContainerVersion where
  name : String
  tags : Option (List String)
  deriving DecidableEq, Repr

/-- One expanded image reference: a digest or a tag. -/
structure ImageRef where
  reference : String
  isDigest : Bool
  deriving DecidableEq, Repr

/-- Embeds `parseVersions`
(src/migrate-container-packages-action/src/docker.js, lines 65-93):
for each version, push one digest reference (`version.name`) followed by
one tag reference per entry of `version.metadata?.container?.tags || []`. -/
def parseVersions (versions : List ContainerVersion) : List ImageRef :=
  versions.flatMap (fun version =>
    ⟨version.name, true⟩ :: (version.tags.getD []).map (fun tag => ⟨tag, false⟩))

/-- Mutable result accumulator of `migrateReferences`. -/
structure RefResults where
  successCount : Nat
  failureCount : Nat
  digestsSucceeded : Nat
  digestsFailed : Nat
  tagsSucceeded : Nat
  tagsFailed : Nat
  deriving DecidableEq, Repr

/-- Embeds `updateReferenceResults` (docker.js, lines 98-105). -/
def updateReferenceResults (results : RefResults) (success isDigest : Bool) : RefResults :=
  let r1 :=
    if success then { results with successCount := results.successCount + 1 }
    else { results with failureCount := results.failureCount + 1 }
  if success then
    if isDigest then { r1 with digestsSucceeded := r1.digestsSucceeded + 1 }
    else { r1 with tagsSucceeded := r1.tagsSucceeded + 1 }
  else
    if isDigest then { r1 with digestsFailed := r1.digestsFailed + 1 }
    else { r1 with tagsFailed := r1.tagsFailed + 1 }

/-- The all-zero accumulator `migrateReferences` starts from. -/
def initRefResults : RefResults := ⟨0, 0, 0, 0, 0, 0⟩

/-- The reference-processing loop of `migrateReferences` (docker.js,
lines 149-184); `outcome i` is the collapsed boolean result of the i-th
reference's retry-wrapped `performImageMigration`. -/
def migrateReferencesGo (outcome : Nat → Bool) :
    Nat → List ImageRef → RefResults → RefResults
  | _, [], results => results
  | i, ref :: rest, results =>
    migrateReferencesGo outcome (i + 1) rest
      (updateReferenceResults results (outcome i) ref.isDigest)

/-- Embeds `migrateReferences` (docker.js, lines 149-184). -/
def migrateReferences (references : List ImageRef) (outcome : Nat → Bool) : RefResults :=
  migrateReferencesGo outcome 0 references initRefResults

/-- Embeds `buildSkipResult` of the container action (docker.js, lines
189-198): the skip result carries zeroed digest/tag buckets. -/
def buildSkipResultContainer (packageName : String) : PackageResult :=
  createPackageResult packageName 0 0
    ⟨true, some "No versions found", some 0, some 0, some 0, some 0⟩

/-- Embeds `migratePackage` of the container action (docker.js, lines
203-226): skip when the version list is empty, otherwise expand
references with `parseVersions`, migrate each, and assemble the result
from the accumulated buckets. -/
def migratePackageContainer (packageName : String) (versions : List ContainerVersion)
    (outcome : Nat → Bool) : PackageResult :=
  if versions.length = 0 then buildSkipResultContainer packageName
  else
    let references := parseVersions versions
    let results := migrateReferences references outcome
    createPackageResult packageName results.successCount results.failureCount
      ⟨false, none, some results.digestsSucceeded, some results.digestsFailed,
        some results.tagsSucceeded, some results.tagsFailed⟩

/-! ## Orchestrator outcome (`outputResults`, src/unnamed/part_004 lines
590-635 and src/unnamed/part_005 lines 222-267) -/

/-- Job status set by `outputResults`: `core.setFailed` (hard failure),
`core.warning` only (partial failure), or neither (success). -/
inductive RunOutcome where
  | hardFailure
  | partialFailure
  | success
  deriving DecidableEq, Repr

/-- Embeds `results.reduce((acc, r) => acc + (r.succeeded || 0), 0)`. -/
def totalSucceeded (results : List PackageResult) : Nat :=
  results.foldl (fun acc r => acc + r.succeeded) 0

/-- Embeds `results.reduce((acc, r) => acc + (r.failed || 0), 0)`. -/
def totalFailed (results : List PackageResult) : Nat :=
  results.foldl (fun acc r => acc + r.failed) 0

/-- Embeds the job-status decision at the end of `outputResults`:
`setFailed` when `totals.failed > 0 && totals.success === 0`, `warning`
when only `totals.failed > 0`, success otherwise. -/
def outputResultsStatus (results : List PackageResult) : RunOutcome :=
  if 0 < totalFailed results ∧ totalSucceeded results = 0 then RunOutcome.hardFailure
  else if 0 < totalFailed results then RunOutcome.partialFailure
  else RunOutcome.success

/-! ## Resource tracker (src/unnamed/part_004, lines 540-578)

The filesystem is an explicit state: `disk` is the set of existing
paths (a removed tree is one path) and `tracked` the insertion-ordered
contents of the module-level `resources` set.  `rmFails p` tells
whether `fs.rmSync(p, {recursive: true, force: true})` throws an I/O
error (e.g. `EACCES`); with `force: true` a missing path never throws,
which the code already guards with `existsSync`. -/

/-- Tracker state: existing paths on disk and the tracked-path set. -/
structure TrackerState where
  disk : List String
  tracked : List String
  deriving DecidableEq, Repr

/-- Embeds `trackResource` (part_004, lines 556-559): adds the path to
the `resources` set (idempotent). -/
def trackResource (st : TrackerState) (resource : String) : TrackerState :=
  if st.tracked.contains resource then st else ⟨st.disk, st.tracked ++ [resource]⟩

/-- Embeds `cleanupResource` (part_004, lines 564-569): if the path
exists, `rmSync` it — any I/O error it throws propagates to the caller,
since there is no try/catch — then delete it from the tracked set. -/
def cleanupResource (rmFails : String → Bool) (st : TrackerState) (resource : String) :
    Except String TrackerState :=
  if st.disk.contains resource then
    if rmFails resource then Except.error ("EACCES: " ++ resource)
    else Except.ok ⟨st.disk.filter (fun q => q != resource),
      st.tracked.filter (fun q => q != resource)⟩
  else Except.ok ⟨st.disk, st.tracked.filter (fun q => q != resource)⟩

/-- The `for (const resource of resources)` loop of
`cleanupAllResources`, iterating over a snapshot of the tracked set; an
exception thrown by `cleanupResource` aborts the loop and propagates. -/
def cleanupAllResourcesGo (rmFails : String → Bool) :
    List String → TrackerState → Except String TrackerState
  | [], st => Except.ok st
  | resource :: rest, st =>
    match cleanupResource rmFails st resource with
    | Except.error e => Except.error e
    | Except.ok st' => cleanupAllResourcesGo rmFails rest st'

/-- Embeds `cleanupAllResources` (part_004, lines 574-578). -/
def cleanupAllResources (rmFails : String → Bool) (st : TrackerState) :
    Except String TrackerState :=
  cleanupAllResourcesGo rmFails st.tracked st

/-! ## NuGet archive repair (`fixNuGetPackage`, src/unnamed/part_002
lines 32-50 and src/migrate-nuget-packages-action/src/index.js lines
134-171) -/

/-- One archive entry: its path inside the archive and its bytes. -/
structure ZipEntry where
  entryName : String
  content : String
  deriving DecidableEq, Repr

/-- The two well-known metadata paths whose duplicates GPR rejects. -/
def filesToRemove : List String := ["_rels/.rels", "[Content_Types].xml"]

/-- adm-zip's `entryTable`: each entry name is keyed to the entry
object that was read last under that name — modelled as the original
index (in the `enum`-indexed entry list) of the last entry with that
name. `zipFile.getEntry(name)` is a lookup in this table. -/
def fixNuGetPackageTable (entries : List ZipEntry) : String → Option Nat :=
  fun name =>
    ((entries.enum.filter (fun q => q.2.entryName == name)).getLast?).map (fun q => q.1)

/-- The `zip.getEntries().forEach(...)` scan of `fixNuGetPackage`, over
the library's *live* entry list.  `steps` counts down from the length
cached by `forEach` at the start; at each step, index `k` of the
current live list is visited if it still exists.  An entry at one of
the `filesToRemove` paths whose path was already seen triggers
`zip.deleteFile(name)`: if the name is still in the entry table (not
yet deleted), the table's entry for it — the *last*-read entry at that
path, identified by its original index — is spliced out of the live
list and the table key forgotten; a later `deleteFile` on the same
name finds nothing and is a no-op.  Every other visited entry has its
path added to `seenPaths`.  Splicing shrinks the live list, so
elements can shift below the iteration index and be skipped. -/
def fixNuGetPackageLoop (table : String → Option Nat) :
    Nat → Nat → List String → List String → List (Nat × ZipEntry) → List (Nat × ZipEntry)
  | 0, _, _, _, entryList => entryList
  | steps + 1, k, seenPaths, deletedKeys, entryList =>
    match entryList[k]? with
    | none => fixNuGetPackageLoop table steps (k + 1) seenPaths deletedKeys entryList
    | some pair =>
      if filesToRemove.contains pair.2.entryName && seenPaths.contains pair.2.entryName then
        if deletedKeys.contains pair.2.entryName then
          fixNuGetPackageLoop table steps (k + 1) seenPaths deletedKeys entryList
        else
          match table pair.2.entryName with
          | none => fixNuGetPackageLoop table steps (k + 1) seenPaths deletedKeys entryList
          | some j =>
            fixNuGetPackageLoop table steps (k + 1) seenPaths
              (pair.2.entryName :: deletedKeys)
              (entryList.eraseP (fun q => q.1 == j))
      else
        fixNuGetPackageLoop table steps (k + 1) (pair.2.entryName :: seenPaths)
          deletedKeys entryList

/-- Embeds `fixNuGetPackage` (src/unnamed/part_002, lines 32-50, and
src/migrate-nuget-packages-action/src/index.js, lines 134-171): the
archive's entry list after the duplicate-removal scan, with adm-zip's
semantics — a name-keyed `deleteFile` against the last-read entry table
and a `forEach` over the live, spliced entry list.  (The two fixed
paths are plain files, so `deleteEntry`'s directory recursion never
fires.) -/
def fixNuGetPackage (entries : List ZipEntry) : List ZipEntry :=
  (fixNuGetPackageLoop (fixNuGetPackageTable entries) entries.length 0 [] []
    entries.enum).map Prod.snd

/-! ## Registry URL derivation (src/unnamed/part_004, lines 365-460)

The JavaScript string primitives used by these functions
(`startsWith`, `substring`, `toLowerCase`) are implemented over the
string's character list, so that every definition evaluates inside the
kernel. -/

/-- Tests whether `s` starts with the pattern `pat` (character lists). -/
def listStartsWith : List Char → List Char → Bool
  | _, [] => true
  | [], _ :: _ => false
  | c :: s, p :: ps => c == p && listStartsWith s ps

/-- JavaScript `s.startsWith(pre)`. -/
def strStartsWith (s pre : String) : Bool :=
  listStartsWith s.data pre.data

/-- JavaScript `s.substring(n)`: drop the first `n` characters. -/
def strDrop (s : String) (n : Nat) : String :=
  String.mk (s.data.drop n)

/-- JavaScript `s.toLowerCase()` (ASCII range, which is all these
inputs use). -/
def strToLower (s : String) : String :=
  String.mk (s.data.map Char.toLower)

/-- Embeds `getBaseHostname` (part_004, lines 450-460), applied to the
hostname already extracted from the API URL (`new URL(apiUrl).hostname`
is collapsed: the argument is that hostname). -/
def getBaseHostname (hostname : String) : String :=
  if strStartsWith hostname "api." then strDrop hostname 4 else hostname

/-- Embeds `getNpmRegistryUrl` (part_004, lines 365-388); the empty
string models an absent/falsy `customRegistryUrl`. -/
def getNpmRegistryUrl (hostname customRegistryUrl : String) : String :=
  if customRegistryUrl ≠ "" then customRegistryUrl
  else if hostname = "api.github.com" then "https://npm.pkg.github.com"
  else if strStartsWith hostname "api." then "https://npm." ++ strDrop hostname 4
  else "https://npm." ++ hostname

/-- Embeds `getNuGetRegistryUrl` (part_004, lines 393-416). -/
def getNuGetRegistryUrl (hostname customRegistryUrl : String) : String :=
  if customRegistryUrl ≠ "" then customRegistryUrl
  else if hostname = "api.github.com" then "https://nuget.pkg.github.com"
  else if strStartsWith hostname "api." then "https://nuget." ++ strDrop hostname 4
  else "https://nuget." ++ hostname

/-- The three package kinds accepted by `getRegistryUrl`. -/
inductive PackageType where
  | npm
  | nuget
  | container
  deriving DecidableEq, Repr

/-- Embeds `getRegistryUrl` (part_004, lines 425-443): custom URL wins;
otherwise dispatch on the kind, with the container case inlined in the
source. -/
def getRegistryUrl (packageType : PackageType) (hostname customRegistryUrl : String) :
    String :=
  if customRegistryUrl ≠ "" then customRegistryUrl
  else
    match packageType with
    | PackageType.npm => getNpmRegistryUrl hostname ""
    | PackageType.nuget => getNuGetRegistryUrl hostname ""
    | PackageType.container =>
      if hostname = "api.github.com" then "ghcr.io"
      else "containers." ++ getBaseHostname hostname

/-- The public default registry host per kind (spec wording). -/
def defaultRegistryHost : PackageType → String
  | PackageType.npm => "https://npm.pkg.github.com"
  | PackageType.nuget => "https://nuget.pkg.github.com"
  | PackageType.container => "ghcr.io"

/-- The kind-specific subdomain prepended to the stripped hostname
(spec wording; the npm/nuget forms carry the scheme). -/
def registrySubdomain : PackageType → String
  | PackageType.npm => "https://npm."
  | PackageType.nuget => "https://nuget."
  | PackageType.container => "containers."

/-! ## Packages-input filtering (`parsePackagesInput`,
src/unnamed/part_004 lines 334-350 and src/unnamed/part_005 lines
69-85) -/

/-- One element of the parsed packages JSON array: its `type` field is
`none` when absent (`undefined`). -/
structure PkgInput where
  name : String
  type : Option String
  deriving DecidableEq, Repr

/-- Embeds the filter of `parsePackagesInput` (JSON parsing collapsed:
the argument is the parsed array): keep `pkg` when
`pkg.type?.toLowerCase() === packageType.toLowerCase() || !pkg.type`;
when `packageType` is falsy, return the array unfiltered. -/
def parsePackagesInput (pkgObjects : List PkgInput) (packageType : String) :
    List PkgInput :=
  if packageType ≠ "" then
    pkgObjects.filter (fun pkg =>
      (match pkg.type with
        | some t => strToLower t == strToLower packageType
        | none => false) ||
      (match pkg.type with
        | some t => t == ""
        | none => true))
  else pkgObjects

/-! ## npm metadata rewrite
(src/migrate-npm-packages-action/src/package.js and
src/unnamed/part_011, src/unnamed/part_012) -/

/-- Index of the first occurrence of `pat` in `s`, if any — the search
`String.prototype.replace` performs for a string pattern. -/
def strFindSub (pat : List Char) : List Char → Option Nat
  | [] => if listStartsWith [] pat then some 0 else none
  | c :: rest =>
    if listStartsWith (c :: rest) pat then some 0
    else (strFindSub pat rest).map (fun i => i + 1)

/-- JavaScript `s.replace(pat, rep)` with a string pattern: replaces
only the first occurrence of `pat`, and returns `s` unchanged when
`pat` does not occur. -/
def jsReplaceFirst (s pat rep : String) : String :=
  match strFindSub pat.data s.data with
  | none => s
  | some i => String.mk (s.data.take i ++ rep.data ++ s.data.drop (i + pat.data.length))

/-- Embeds `updatePackageName` (package.js, lines 30-32 / part_012,
lines 36-38): `pkgJson.name.replace(`@${sourceOrg}/`, `@${targetOrg}/`)`. -/
def updatePackageName (name sourceOrg targetOrg : String) : String :=
  jsReplaceFirst name ("@" ++ sourceOrg ++ "/") ("@" ++ targetOrg ++ "/")

/-- The `repository` field of a package.json: a string URL or an object
with optional `type`/`url` members. -/
inductive RepoField where
  | str (url : String)
  | obj (rtype : Option String) (rurl : Option String)
  deriving DecidableEq, Repr

/-- A package.json document: the fields the rewrite touches plus the
untouched remainder. -/
structure PkgJson where
  name : String
  repository : Option RepoField
  extra : List (String × String)
  deriving DecidableEq, Repr

/-- JavaScript `s.endsWith(suffix)` over character lists. -/
def strEndsWith (s suffix : String) : Bool :=
  decide (suffix.data.length ≤ s.data.length) &&
    s.data.drop (s.data.length - suffix.data.length) == suffix.data

/-- Embeds the `.replace(/\.git$/, "")` step of `extractRepoName`. -/
def removeGitSuffix (s : String) : String :=
  if strEndsWith s ".git" then String.mk (s.data.take (s.data.length - 4)) else s

/-- JavaScript `s.split(sep).pop()` for a one-character separator: the
characters after the last separator (the whole string when the
separator does not occur). -/
def lastSegment (sep : Char) (s : String) : String :=
  String.mk ((s.data.reverse.takeWhile (fun c => c != sep)).reverse)

/-- Embeds `extractRepoName` (src/unnamed/part_011): the explicit
repo-name input if truthy, else the last `/`-segment of the existing
URL with a `.git` suffix stripped, else `null`. -/
def extractRepoName (repoName existingUrl : String) : Option String :=
  if repoName ≠ "" then some repoName
  else
    let extracted := removeGitSuffix (lastSegment '/' existingUrl)
    if extracted ≠ "" then some extracted else none

/-- Embeds `buildRepoUrl` (src/unnamed/part_011). -/
def buildRepoUrl (targetHostname targetOrg repoName : String) : String :=
  "git+https://" ++ targetHostname ++ "/" ++ targetOrg ++ "/" ++ repoName ++ ".git"

/-- Embeds `updateRepositoryDetails` (src/unnamed/part_011): derive the
repo name; if none, leave the document alone; otherwise overwrite the
repository link (string form stays a string; object form gets
`type || "git"` and the new URL; a missing field becomes a fresh
object). `targetApiHostname` is the hostname of the target API URL. -/
def updateRepositoryDetails (pkgJson : PkgJson)
    (repoName targetOrg targetApiHostname : String) : PkgJson :=
  let targetHostname := getBaseHostname targetApiHostname
  let existingUrl :=
    match pkgJson.repository with
    | some (RepoField.str s) => s
    | some (RepoField.obj _ u) => u.getD ""
    | none => ""
  match extractRepoName repoName existingUrl with
  | none => pkgJson
  | some extractedName =>
    let newRepoUrl := buildRepoUrl targetHostname targetOrg extractedName
    match pkgJson.repository with
    | some (RepoField.str _) => { pkgJson with repository := some (RepoField.str newRepoUrl) }
    | some (RepoField.obj rtype _) =>
      { pkgJson with repository := some (RepoField.obj
          (some (match rtype with
            | some t => if t ≠ "" then t else "git"
            | none => "git"))
          (some newRepoUrl)) }
    | none =>
      { pkgJson with repository := some (RepoField.obj (some "git") (some newRepoUrl)) }

/-- Embeds `updatePackageMetadata` (package.js, lines 34-46): rename
the scope in `name`, then rewrite the repository link when a repo name
was supplied or the document has a repository field (file I/O and JSON
serialisation collapsed). -/
def updatePackageMetadata (pkgJson : PkgJson)
    (sourceOrg targetOrg targetApiHostname repoName : String) : PkgJson :=
  let p := { pkgJson with name := updatePackageName pkgJson.name sourceOrg targetOrg }
  if repoName ≠ "" ∨ p.repository.isSome then
    updateRepositoryDetails p repoName targetOrg targetApiHostname
  else p

/-! ## npm single-version transfer (`processPackageVersion`,
src/unnamed/part_013 lines 183-199 and
src/migrate-npm-packages-action/src/package.js lines 89-106)

The HTTP world is an oracle: the manifest request's outcome, each
tarball URL's download outcome, and the publish subprocess's boolean
outcome (`publishToRegistry` catches its own errors). -/

/-- The external world one version transfer runs against. -/
structure NpmWorld where
  manifestResp : Except JsError (String → Option String)
  downloadResp : String → Except JsError Unit
  publishOk : Bool

/-- Embeds `fetchPackageManifest` (package.js, lines 62-87 / part_013,
lines 58-83): an HTTP error is logged and rethrown; on success the
version's tarball URL is looked up, `null` when absent. -/
def fetchPackageManifest (manifestResp : Except JsError (String → Option String))
    (versionName : String) : Except JsError (Option String) :=
  match manifestResp with
  | Except.error e => Except.error e
  | Except.ok versions => Except.ok (versions versionName)

/-- Embeds `processPackageVersion` of src/unnamed/part_013 (lines
183-199) — no try/catch: a missing manifest entry returns `false`, any
error thrown by the manifest fetch or the download propagates out, and
the publish step returns its boolean. -/
def processPackageVersion (w : NpmWorld) (versionName : String) : Except JsError Bool :=
  match fetchPackageManifest w.manifestResp versionName with
  | Except.error e => Except.error e
  | Except.ok none => Except.ok false
  | Except.ok (some tarballUrl) =>
    match w.downloadResp tarballUrl with
    | Except.error e => Except.error e
    | Except.ok _ => Except.ok w.publishOk

/-- Embeds `processPackageVersion` of
src/migrate-npm-packages-action/src/package.js (lines 89-106) — the
whole body sits in a try/catch whose catch logs and returns `false`, so
every thrown error is converted to `false`. -/
def processPackageVersionCaught (w : NpmWorld) (versionName : String) :
    Except JsError Bool :=
  match fetchPackageManifest w.manifestResp versionName with
  | Except.error _ => Except.ok false
  | Except.ok none => Except.ok false
  | Except.ok (some tarballUrl) =>
    match w.downloadResp tarballUrl with
    | Except.error _ => Except.ok false
    | Except.ok _ => Except.ok w.publishOk

/-- A concrete world whose manifest request always fails with an
authentication (401) error. -/
def authFailWorld : NpmWorld :=
  ⟨Except.error ⟨ErrClass.auth, "Request failed with status code 401"⟩,
    fun _ => Except.ok (), true⟩

/-! Behaviour of the retry loop on operations that always throw. -/

/-- On an operation that always throws an aborting error, the `p-retry`
loop invokes it once, performs no sleep, and settles with a plain error
carrying the original message. -/
theorem pRetryRun_always_abort {α : Type} (shouldAbort : JsError → Bool)
    (minT maxT factor : Nat) (errF : Nat → JsError)
    (h : ∀ n, shouldAbort (errF n) = true) (retriesLeft attempt : Nat) :
    pRetryRun (α := α) shouldAbort minT maxT factor retriesLeft attempt
      (fun n => Except.error (errF n)) =
      ⟨Except.error ⟨ErrClass.other, (errF attempt).msg⟩, 1, 0, []⟩ := by
  cases retriesLeft <;> simp [pRetryRun, h]

/-- On an operation that always throws a non-aborting error, the
`p-retry` loop invokes it `retriesLeft + 1` times, sleeps after each
attempt but the last, and settles with the last attempt's error. -/
theorem pRetryRun_always_retryable {α : Type} (shouldAbort : JsError → Bool)
    (minT maxT factor : Nat) (errF : Nat → JsError)
    (h : ∀ n, shouldAbort (errF n) = false) (retriesLeft attempt : Nat) :
    pRetryRun (α := α) shouldAbort minT maxT factor retriesLeft attempt
      (fun n => Except.error (errF n)) =
      ⟨Except.error (errF (attempt + retriesLeft)), retriesLeft + 1, retriesLeft + 1,
        (List.range retriesLeft).map (fun k => backoffDelay minT maxT factor (attempt + k))⟩ := by
  induction retriesLeft generalizing attempt with
  | zero => simp [pRetryRun, h]
  | succ r ih =>
    simp only [pRetryRun, h, Bool.false_eq_true, if_false, ih (attempt + 1),
      RetryTrace.mk.injEq]
    refine ⟨?_, ?_⟩
    · have hn : attempt + 1 + r = attempt + (r + 1) := by omega
      rw [hn]
    · simp only [List.range_succ_eq_map, List.map_cons, List.map_map, Nat.add_zero,
        List.cons.injEq]
      refine ⟨trivial, trivial, trivial, List.map_congr_left ?_⟩
      intro k _
      simp only [Function.comp_apply, Nat.succ_eq_add_one]
      have hk : attempt + 1 + k = attempt + (k + 1) := by omega
      rw [hk]

/-- C1 (amended): the shared `withRetry` (src/unnamed/part_004), which
classifies `AuthenticationError`/`PackageNotFoundError` as permanent,
invokes an operation that always throws a permanent error exactly once
and rethrows an error with its message without any retry, `onRetry`
call, or backoff sleep; an operation that always throws a
non-permanent error (network reset, timeout, DNS failure,
5xx-equivalent) is invoked `retries + 1` times — the configured attempt
ceiling — with a backoff sleep after each attempt but the last, and the
last error is rethrown. -/
theorem withRetry_permanent_once_retryable_ceiling {α : Type} (config : RetryConfig)
    (permF retryF : Nat → JsError)
    (hperm : ∀ n, isPermanentError (permF n) = true)
    (hretry : ∀ n, isPermanentError (retryF n) = false) :
    withRetry (α := α) config (fun n => Except.error (permF n)) =
      ⟨Except.error ⟨ErrClass.other, (permF 1).msg⟩, 1, 0, []⟩ ∧
    (withRetry (α := α) config (fun n => Except.error (retryF n))).calls =
      config.retries + 1 ∧
    (withRetry (α := α) config (fun n => Except.error (retryF n))).result =
      Except.error (retryF (config.retries + 1)) ∧
    (withRetry (α := α) config (fun n => Except.error (retryF n))).delays.length =
      config.retries := by
  refine ⟨?_, ?_, ?_, ?_⟩
  · exact pRetryRun_always_abort isPermanentError config.minTimeout config.maxTimeout
      config.factor permF hperm config.retries 1
  · rw [withRetry, pRetryRun_always_retryable isPermanentError config.minTimeout
      config.maxTimeout config.factor retryF hretry config.retries 1]
  · rw [withRetry, pRetryRun_always_retryable isPermanentError config.minTimeout
      config.maxTimeout config.factor retryF hretry config.retries 1]
    rw [Nat.add_comm 1 config.retries]
  · rw [withRetry, pRetryRun_always_retryable isPermanentError config.minTimeout
      config.maxTimeout config.factor retryF hretry config.retries 1]
    simp

/-- Witness for C1's theorem at a concrete permanent (401) error and a
concrete transient (ETIMEDOUT) error under the default configuration. -/
theorem withRetry_permanent_once_retryable_ceiling_witness :
    withRetry (α := Unit) DEFAULT_RETRY_CONFIG
        (fun _ => Except.error ⟨ErrClass.auth, "401 Unauthorized"⟩) =
      ⟨Except.error ⟨ErrClass.other, "401 Unauthorized"⟩, 1, 0, []⟩ ∧
    (withRetry (α := Unit) DEFAULT_RETRY_CONFIG
        (fun _ => Except.error ⟨ErrClass.other, "ETIMEDOUT"⟩)).calls = 4 := by
  have h := withRetry_permanent_once_retryable_ceiling (α := Unit) DEFAULT_RETRY_CONFIG
    (fun _ => ⟨ErrClass.auth, "401 Unauthorized"⟩)
    (fun _ => ⟨ErrClass.other, "ETIMEDOUT"⟩)
    (fun _ => rfl) (fun _ => rfl)
  exact ⟨h.1, h.2.1⟩

/-- C1 counterexample: the earlier `withRetry` variant
(src/unnamed/part_005) performs no permanent-error classification, so
an operation that always throws an authentication error is invoked 4
times (not once) under the default options, with backoff sleeps of
1s, 2s and 4s between the attempts. -/
theorem withRetryLegacy_retries_permanent_error :
    (withRetryLegacy (α := Unit) 3 1000 10000
        (fun _ => Except.error ⟨ErrClass.auth, "401 Unauthorized"⟩)).calls = 4 ∧
    (withRetryLegacy (α := Unit) 3 1000 10000
        (fun _ => Except.error ⟨ErrClass.auth, "401 Unauthorized"⟩)).delays =
      [1000, 2000, 4000] := by
  exact ⟨rfl, rfl⟩

/-- The tally fold adds one to one of the two counters per outcome. -/
theorem tallyVersions_foldl_sum (outcomes : List Bool) :
    ∀ a b : Nat,
    (outcomes.foldl
      (fun acc success => cond success (acc.1 + 1, acc.2) (acc.1, acc.2 + 1))
      (a, b)).1 +
    (outcomes.foldl
      (fun acc success => cond success (acc.1 + 1, acc.2) (acc.1, acc.2 + 1))
      (a, b)).2 = a + b + outcomes.length := by
  induction outcomes with
  | nil => intro a b; simp
  | cons head tail ih =>
    intro a b
    simp only [List.foldl_cons, List.length_cons]
    cases head
    · exact (ih a (b + 1)).trans (by omega)
    · exact (ih (a + 1) b).trans (by omega)

/-- The two counters of `tallyVersions` sum to the number of outcomes. -/
theorem tallyVersions_sum (outcomes : List Bool) :
    (tallyVersions outcomes).1 + (tallyVersions outcomes).2 = outcomes.length := by
  have h := tallyVersions_foldl_sum outcomes 0 0
  simpa [tallyVersions] using h

/-- `updateReferenceResults` adds exactly one to the success or failure
counter. -/
theorem updateReferenceResults_total (results : RefResults) (success isDigest : Bool) :
    (updateReferenceResults results success isDigest).successCount +
      (updateReferenceResults results success isDigest).failureCount =
      results.successCount + results.failureCount + 1 := by
  cases success <;> cases isDigest <;> simp [updateReferenceResults] <;> omega

/-- The reference loop adds one attempt per reference to the combined
success/failure count. -/
theorem migrateReferencesGo_total (outcome : Nat → Bool) (refs : List ImageRef) :
    ∀ (i : Nat) (acc : RefResults),
    (migrateReferencesGo outcome i refs acc).successCount +
      (migrateReferencesGo outcome i refs acc).failureCount =
      acc.successCount + acc.failureCount + refs.length := by
  induction refs with
  | nil => intro i acc; simp [migrateReferencesGo]
  | cons ref rest ih =>
    intro i acc
    rw [migrateReferencesGo, ih, updateReferenceResults_total]
    simp only [List.length_cons]
    omega

/-- A nonempty version list expands to at least one reference. -/
theorem parseVersions_length_pos (versions : List ContainerVersion)
    (h : versions ≠ []) : 0 < (parseVersions versions).length := by
  cases versions with
  | nil => exact absurd rfl h
  | cons v rest => simp [parseVersions]

/-- The combined success/failure count of `migrateReferences` equals
the number of references attempted. -/
theorem migrateReferences_total (refs : List ImageRef) (outcome : Nat → Bool) :
    (migrateReferences refs outcome).successCount +
      (migrateReferences refs outcome).failureCount = refs.length := by
  have h := migrateReferencesGo_total outcome refs 0 initRefResults
  simpa [migrateReferences, initRefResults] using h

/-- C2: for both the npm and the container `migratePackage`,
`succeeded + failed` equals the number of transfer attempts made (one
per version for npm, one per expanded reference for container), both
counts are zero exactly when `skipped` is true, and an empty version
enumeration yields the skip result
`{succeeded: 0, failed: 0, skipped: true, reason: "No versions found"}`
rather than an error. -/
theorem migratePackage_counts_invariant (packageName : String)
    (versionNames : List String) (cversions : List ContainerVersion)
    (migrateVersion outcome : Nat → Bool) :
    ((migratePackageNpm packageName versionNames migrateVersion).skipped = false →
      (migratePackageNpm packageName versionNames migrateVersion).succeeded +
        (migratePackageNpm packageName versionNames migrateVersion).failed =
        versionNames.length) ∧
    ((migratePackageNpm packageName versionNames migrateVersion).succeeded = 0 ∧
        (migratePackageNpm packageName versionNames migrateVersion).failed = 0 ↔
      (migratePackageNpm packageName versionNames migrateVersion).skipped = true) ∧
    ((migratePackageContainer packageName cversions outcome).skipped = false →
      (migratePackageContainer packageName cversions outcome).succeeded +
        (migratePackageContainer packageName cversions outcome).failed =
        (parseVersions cversions).length) ∧
    ((migratePackageContainer packageName cversions outcome).succeeded = 0 ∧
        (migratePackageContainer packageName cversions outcome).failed = 0 ↔
      (migratePackageContainer packageName cversions outcome).skipped = true) ∧
    migratePackageNpm packageName [] migrateVersion = buildSkipResult packageName ∧
    migratePackageContainer packageName [] outcome = buildSkipResultContainer packageName ∧
    (buildSkipResult packageName).succeeded = 0 ∧
    (buildSkipResult packageName).failed = 0 ∧
    (buildSkipResult packageName).skipped = true ∧
    (buildSkipResult packageName).reason = some "No versions found" ∧
    (buildSkipResultContainer packageName).succeeded = 0 ∧
    (buildSkipResultContainer packageName).failed = 0 ∧
    (buildSkipResultContainer packageName).skipped = true ∧
    (buildSkipResultContainer packageName).reason = some "No versions found" := by
  have hnpm : versionNames.length ≠ 0 →
      (migratePackageNpm packageName versionNames migrateVersion).skipped = false ∧
      (migratePackageNpm packageName versionNames migrateVersion).succeeded +
        (migratePackageNpm packageName versionNames migrateVersion).failed =
        versionNames.length := by
    intro h
    simp only [migratePackageNpm, if_neg h]
    refine ⟨rfl, ?_⟩
    have ht := tallyVersions_sum ((List.range versionNames.length).map migrateVersion)
    simpa using ht
  have hcont : cversions.length ≠ 0 →
      (migratePackageContainer packageName cversions outcome).skipped = false ∧
      (migratePackageContainer packageName cversions outcome).succeeded +
        (migratePackageContainer packageName cversions outcome).failed =
        (parseVersions cversions).length := by
    intro h
    simp only [migratePackageContainer, if_neg h]
    exact ⟨rfl, migrateReferences_total (parseVersions cversions) outcome⟩
  refine ⟨?_, ?_, ?_, ?_, rfl, rfl, rfl, rfl, rfl, rfl, rfl, rfl, rfl, rfl⟩
  · intro hs
    rcases Nat.eq_zero_or_pos versionNames.length with h0 | hpos
    · exfalso
      have : versionNames = [] := List.length_eq_zero.mp h0
      subst this
      simp [migratePackageNpm, buildSkipResult, createPackageResult] at hs
    · exact (hnpm (Nat.pos_iff_ne_zero.mp hpos)).2
  · rcases Nat.eq_zero_or_pos versionNames.length with h0 | hpos
    · have : versionNames = [] := List.length_eq_zero.mp h0
      subst this
      simp [migratePackageNpm, buildSkipResult, createPackageResult]
    · have h := hnpm (Nat.pos_iff_ne_zero.mp hpos)
      rw [h.1]
      constructor
      · intro hz
        exfalso
        have := h.2
        omega
      · intro hf
        exact absurd hf (by simp)
  · intro hs
    rcases Nat.eq_zero_or_pos cversions.length with h0 | hpos
    · exfalso
      have : cversions = [] := List.length_eq_zero.mp h0
      subst this
      simp [migratePackageContainer, buildSkipResultContainer, createPackageResult] at hs
    · exact (hcont (Nat.pos_iff_ne_zero.mp hpos)).2
  · rcases Nat.eq_zero_or_pos cversions.length with h0 | hpos
    · have : cversions = [] := List.length_eq_zero.mp h0
      subst this
      simp [migratePackageContainer, buildSkipResultContainer, createPackageResult]
    · have h := hcont (Nat.pos_iff_ne_zero.mp hpos)
      rw [h.1]
      constructor
      · intro hz
        exfalso
        have hlen := parseVersions_length_pos cversions
          (by intro hnil; rw [hnil] at hpos; simp at hpos)
        have := h.2
        omega
      · intro hf
        exact absurd hf (by simp)

/-- Witness for C2's theorem: a two-version npm package with one
success and one failure accounts for both attempts, and a container
package with an empty version list yields the skip result. -/
theorem migratePackage_counts_invariant_witness :
    (migratePackageNpm "left-pad" ["1.0.0", "1.1.0"] (fun i => i == 0)).succeeded +
      (migratePackageNpm "left-pad" ["1.0.0", "1.1.0"] (fun i => i == 0)).failed = 2 ∧
    migratePackageContainer "img" [] (fun _ => true) = buildSkipResultContainer "img" := by
  have h := migratePackage_counts_invariant "left-pad" ["1.0.0", "1.1.0"] []
    (fun i => i == 0) (fun _ => true)
  have h2 := migratePackage_counts_invariant "img" ["1.0.0", "1.1.0"] []
    (fun i => i == 0) (fun _ => true)
  exact ⟨h.1 rfl, h2.2.2.2.2.2.1⟩

/-- C3: the job status set by `outputResults` is a function of the
aggregate succeeded/failed totals alone — `setFailed` (hard failure)
exactly when some migration failed and none succeeded, a non-fatal
warning (partial failure) exactly when failures and successes coexist,
and success exactly when nothing failed — and in particular aggregate
totals (succeeded 0, failed 5) give a hard failure, (3, 2) a partial
failure, and (5, 0) a success. -/
theorem outputResults_status_spec (results : List PackageResult) :
    (outputResultsStatus results = RunOutcome.hardFailure ↔
      0 < totalFailed results ∧ totalSucceeded results = 0) ∧
    (outputResultsStatus results = RunOutcome.partialFailure ↔
      0 < totalFailed results ∧ 0 < totalSucceeded results) ∧
    (outputResultsStatus results = RunOutcome.success ↔ totalFailed results = 0) ∧
    (∀ results2 : List PackageResult,
      totalFailed results2 = totalFailed results →
      totalSucceeded results2 = totalSucceeded results →
      outputResultsStatus results2 = outputResultsStatus results) ∧
    outputResultsStatus [createPackageResult "pkg-a" 0 5 noResultOptions] =
      RunOutcome.hardFailure ∧
    outputResultsStatus [createPackageResult "pkg-a" 3 0 noResultOptions,
      createPackageResult "pkg-b" 0 2 noResultOptions] = RunOutcome.partialFailure ∧
    outputResultsStatus [createPackageResult "pkg-a" 5 0 noResultOptions] =
      RunOutcome.success := by
  have hfn : ∀ rs : List PackageResult,
      (outputResultsStatus rs = RunOutcome.hardFailure ↔
        0 < totalFailed rs ∧ totalSucceeded rs = 0) ∧
      (outputResultsStatus rs = RunOutcome.partialFailure ↔
        0 < totalFailed rs ∧ 0 < totalSucceeded rs) ∧
      (outputResultsStatus rs = RunOutcome.success ↔ totalFailed rs = 0) := by
    intro rs
    unfold outputResultsStatus
    split_ifs with h1 h2
    · refine ⟨by simp [h1], ?_, ?_⟩
      · simp only [show (RunOutcome.hardFailure = RunOutcome.partialFailure) = False by
          simp, false_iff]
        omega
      · simp only [show (RunOutcome.hardFailure = RunOutcome.success) = False by simp,
          false_iff]
        omega
    · refine ⟨?_, ?_, ?_⟩
      · simp only [show (RunOutcome.partialFailure = RunOutcome.hardFailure) = False by
          simp, false_iff]
        omega
      · simp only [true_iff]
        omega
      · simp only [show (RunOutcome.partialFailure = RunOutcome.success) = False by simp,
          false_iff]
        omega
    · refine ⟨?_, ?_, by simp; omega⟩
      · simp only [show (RunOutcome.success = RunOutcome.hardFailure) = False by simp,
          false_iff]
        omega
      · simp only [show (RunOutcome.success = RunOutcome.partialFailure) = False by simp,
          false_iff]
        omega
  refine ⟨(hfn results).1, (hfn results).2.1, (hfn results).2.2, ?_, by decide, by decide,
    by decide⟩
  intro results2 hf hs
  unfold outputResultsStatus
  rw [hf, hs]

/-- Witness for C3's theorem at concrete aggregates, including the
totals-only dependence applied to two different result lists with the
same totals. -/
theorem outputResults_status_spec_witness :
    outputResultsStatus [createPackageResult "demo" 0 7 noResultOptions] =
      RunOutcome.hardFailure ∧
    outputResultsStatus [createPackageResult "x" 0 3 noResultOptions,
        createPackageResult "y" 0 4 noResultOptions] =
      outputResultsStatus [createPackageResult "demo" 0 7 noResultOptions] := by
  refine ⟨(outputResults_status_spec _).1.mpr (by decide), ?_⟩
  exact (outputResults_status_spec _).2.2.2.1 _ (by decide) (by decide)

/-- An `eraseP` removes at most one element, so a filtered length
drops by at most one. -/
theorem length_filter_le_eraseP {α : Type} (l : List α) (q r : α → Bool) :
    (l.filter r).length ≤ ((l.eraseP q).filter r).length + 1 := by
  by_cases hex : ∃ a ∈ l, q a = true
  · obtain ⟨a, ha, hqa⟩ := hex
    obtain ⟨a', l₁, l₂, _, _, hsplit, herase⟩ := List.exists_of_eraseP ha hqa
    rw [herase, hsplit, List.filter_append, List.filter_append, List.filter_cons,
      List.length_append, List.length_append]
    by_cases hr : r a' = true
    · rw [if_pos hr]
      simp only [List.length_cons]
      omega
    · rw [if_neg hr]
      omega
  · rw [List.eraseP_of_forall_not (fun a ha hqa => hex ⟨a, ha, hqa⟩)]
    omega

/-- When every element matched by `q` fails the filter `r`, erasing a
`q`-match leaves the `r`-filtered list unchanged. -/
theorem filter_eraseP_eq {α : Type} (l : List α) (q r : α → Bool)
    (h : ∀ a ∈ l, q a = true → r a = false) :
    (l.eraseP q).filter r = l.filter r := by
  by_cases hex : ∃ a ∈ l, q a = true
  · obtain ⟨a, ha, hqa⟩ := hex
    obtain ⟨a', l₁, l₂, _, hqa', hsplit, herase⟩ := List.exists_of_eraseP ha hqa
    have ha'mem : a' ∈ l := by
      rw [hsplit]
      exact List.mem_append.mpr (Or.inr (List.mem_cons_self _ _))
    rw [herase, hsplit, List.filter_append, List.filter_append, List.filter_cons,
      h a' ha'mem hqa']
    simp only [Bool.false_eq_true, if_false]
  · rw [List.eraseP_of_forall_not (fun a ha hqa => hex ⟨a, ha, hqa⟩)]

/-- The live-list scan only ever splices entries out: its result is a
sublist of the indexed entry list it started from. -/
theorem fixNuGetPackageLoop_sublist (table : String → Option Nat) :
    ∀ (steps k : Nat) (seenPaths deletedKeys : List String)
      (entryList : List (Nat × ZipEntry)),
    List.Sublist (fixNuGetPackageLoop table steps k seenPaths deletedKeys entryList)
      entryList := by
  intro steps
  induction steps with
  | zero =>
    intro k seen deleted lst
    simp [fixNuGetPackageLoop]
  | succ steps ih =>
    intro k seen deleted lst
    simp only [fixNuGetPackageLoop]
    split
    · exact ih _ _ _ _
    · split_ifs with hA hB
      · exact ih _ _ _ _
      · split
        · exact ih _ _ _ _
        · exact (ih _ _ _ _).trans (List.eraseP_sublist lst)
      · exact ih _ _ _ _

/-- Under a name-correct entry table, the scan never removes an entry
whose path is outside the two fixed paths. -/
theorem fixNuGetPackageLoop_keeps_other (table : String → Option Nat) :
    ∀ (steps k : Nat) (seenPaths deletedKeys : List String)
      (entryList : List (Nat × ZipEntry)),
    (∀ n j, table n = some j → ∀ q ∈ entryList, q.1 = j → q.2.entryName = n) →
    (fixNuGetPackageLoop table steps k seenPaths deletedKeys entryList).filter
        (fun q => !(filesToRemove.contains q.2.entryName)) =
      entryList.filter (fun q => !(filesToRemove.contains q.2.entryName)) := by
  intro steps
  induction steps with
  | zero =>
    intro k seen deleted lst hT
    simp [fixNuGetPackageLoop]
  | succ steps ih =>
    intro k seen deleted lst hT
    simp only [fixNuGetPackageLoop]
    split
    · exact ih _ _ _ _ hT
    · rename_i pair heq
      split_ifs with hA hB
      · exact ih _ _ _ _ hT
      · split
        · exact ih _ _ _ _ hT
        · rename_i j heq2
          have hA' := hA
          rw [Bool.and_eq_true] at hA'
          have hT' : ∀ n j', table n = some j' →
              ∀ q ∈ lst.eraseP (fun q => q.1 == j), q.1 = j' → q.2.entryName = n :=
            fun n j' hj' q hq hq1 =>
              hT n j' hj' q ((List.eraseP_sublist lst).subset hq) hq1
          rw [ih _ _ _ _ hT']
          exact filter_eraseP_eq lst _ _ (fun a ha hqa => by
            have hname : a.2.entryName = pair.2.entryName :=
              hT pair.2.entryName j heq2 a ha (beq_iff_eq.mp hqa)
            rw [hname, hA'.1]
            rfl)
      · exact ih _ _ _ _ hT

/-- Under a name-correct entry table, the scan removes at most one
entry at any given path (a path's table key is dropped after its first
deletion, and deletions for other paths never touch it); the allowance
is 0 once the path's key has been deleted. -/
theorem fixNuGetPackageLoop_count (table : String → Option Nat) (p : String) :
    ∀ (steps k : Nat) (seenPaths deletedKeys : List String)
      (entryList : List (Nat × ZipEntry)),
    (∀ n j, table n = some j → ∀ q ∈ entryList, q.1 = j → q.2.entryName = n) →
    (entryList.filter (fun q => q.2.entryName == p)).length ≤
      ((fixNuGetPackageLoop table steps k seenPaths deletedKeys entryList).filter
          (fun q => q.2.entryName == p)).length +
        cond (deletedKeys.contains p) 0 1 := by
  intro steps
  induction steps with
  | zero =>
    intro k seen deleted lst hT
    simp only [fixNuGetPackageLoop]
    exact Nat.le_add_right _ _
  | succ steps ih =>
    intro k seen deleted lst hT
    simp only [fixNuGetPackageLoop]
    split
    · exact ih _ _ _ _ hT
    · rename_i pair heq
      split_ifs with hA hB
      · exact ih _ _ _ _ hT
      · split
        · exact ih _ _ _ _ hT
        · rename_i j heq2
          have hT' : ∀ n j', table n = some j' →
              ∀ q ∈ lst.eraseP (fun q => q.1 == j), q.1 = j' → q.2.entryName = n :=
            fun n j' hj' q hq hq1 =>
              hT n j' hj' q ((List.eraseP_sublist lst).subset hq) hq1
          by_cases hnp : pair.2.entryName = p
          · have hdel : (pair.2.entryName :: deleted).contains p = true := by
              rw [List.contains_cons, beq_iff_eq.mpr hnp.symm, Bool.true_or]
            have hrec := ih (k + 1) seen (pair.2.entryName :: deleted)
              (lst.eraseP (fun q => q.1 == j)) hT'
            rw [hdel] at hrec
            have hstep := length_filter_le_eraseP lst (fun q => q.1 == j)
              (fun q => q.2.entryName == p)
            have hnotdel : deleted.contains p = false := by
              rw [← hnp]
              exact eq_false_of_ne_true hB
            rw [hnotdel]
            simp only [cond_true, Nat.add_zero] at hrec
            simp only [cond_false]
            omega
          · have hdel : (pair.2.entryName :: deleted).contains p = deleted.contains p := by
              rw [List.contains_cons,
                beq_eq_false_iff_ne.mpr (fun hx => hnp hx.symm), Bool.false_or]
            have hrec := ih (k + 1) seen (pair.2.entryName :: deleted)
              (lst.eraseP (fun q => q.1 == j)) hT'
            rw [hdel] at hrec
            have hkeep : ((lst.eraseP (fun q => q.1 == j)).filter
                (fun q => q.2.entryName == p)) =
                lst.filter (fun q => q.2.entryName == p) := by
              refine filter_eraseP_eq lst _ _ (fun a ha hqa => ?_)
              have hname : a.2.entryName = pair.2.entryName :=
                hT pair.2.entryName j heq2 a ha (beq_iff_eq.mp hqa)
              rw [hname]
              exact beq_eq_false_iff_ne.mpr hnp
            rw [hkeep] at hrec
            exact hrec
      · exact ih _ _ _ _ hT

/-- The entry table really maps a name to the index of an entry
bearing that name: any indexed pair carrying a table index has the
table's name. -/
theorem fixNuGetPackageTable_spec (entries : List ZipEntry) :
    ∀ n j, fixNuGetPackageTable entries n = some j →
    ∀ q ∈ entries.enum, q.1 = j → q.2.entryName = n := by
  intro n j hj q hq hq1
  obtain ⟨pair0, hlast, hj0⟩ := Option.map_eq_some'.mp hj
  have hmemf := List.mem_of_getLast?_eq_some hlast
  have hmem0 := (List.mem_filter.mp hmemf).1
  have hpred0 := (List.mem_filter.mp hmemf).2
  have h1 : entries[pair0.1]? = some pair0.2 := List.mk_mem_enum_iff_getElem?.mp hmem0
  have h2 : entries[q.1]? = some q.2 := List.mk_mem_enum_iff_getElem?.mp hq
  rw [hq1, ← hj0, h1] at h2
  injection h2 with h3
  rw [← h3]
  exact beq_iff_eq.mp hpred0

/-- C5 counterexample: `fixNuGetPackage` does not remove every
subsequent occurrence of a fixed path.  adm-zip's `deleteFile` is
name-keyed against the last-read entry table and the scan splices the
live entry list, so an archive with three `_rels/.rels` entries keeps
two of them (the first duplicate survives because the table's
last-read entry is the one deleted and the loop then runs past the
shortened list), and an archive with `_rels/.rels` and
`[Content_Types].xml` duplicates interleaved keeps both
`[Content_Types].xml` entries (the splice shifts one below the
iteration index, skipping it). -/
theorem fixNuGetPackage_retains_duplicates :
    fixNuGetPackage [⟨"_rels/.rels", "rels-a"⟩, ⟨"_rels/.rels", "rels-b"⟩,
        ⟨"_rels/.rels", "rels-c"⟩] =
      [⟨"_rels/.rels", "rels-a"⟩, ⟨"_rels/.rels", "rels-b"⟩] ∧
    fixNuGetPackage [⟨"_rels/.rels", "r1"⟩, ⟨"[Content_Types].xml", "c1"⟩,
        ⟨"_rels/.rels", "r2"⟩, ⟨"[Content_Types].xml", "c2"⟩] =
      [⟨"_rels/.rels", "r1"⟩, ⟨"[Content_Types].xml", "c1"⟩,
        ⟨"[Content_Types].xml", "c2"⟩] :=
  ⟨by decide, by decide⟩

/-- C5 (amended): `fixNuGetPackage` scans the archive's entries in
order and only ever deletes entries at the two fixed paths
`_rels/.rels` and `[Content_Types].xml` — the output is a sublist of
the input and all entries at other paths are unchanged in content and
count — and it removes at most one entry per fixed path (adm-zip's
name-keyed `deleteFile` deletes the last-read entry for the path and
then its table key); on the spec's example archive — two `_rels/.rels`
entries and one `[Content_Types].xml` entry — the repaired archive
contains exactly one entry at each of those two paths with the other
entry untouched. -/
theorem fixNuGetPackage_spec (entries : List ZipEntry) :
    List.Sublist (fixNuGetPackage entries) entries ∧
    (fixNuGetPackage entries).filter (fun e => !(filesToRemove.contains e.entryName)) =
      entries.filter (fun e => !(filesToRemove.contains e.entryName)) ∧
    (∀ p, filesToRemove.contains p = true →
      (entries.filter (fun e => e.entryName == p)).length ≤
        ((fixNuGetPackage entries).filter (fun e => e.entryName == p)).length + 1) ∧
    fixNuGetPackage [⟨"_rels/.rels", "rels-1"⟩, ⟨"lib/net6.0/pkg.dll", "bin"⟩,
        ⟨"_rels/.rels", "rels-2"⟩, ⟨"[Content_Types].xml", "ct"⟩] =
      [⟨"_rels/.rels", "rels-1"⟩, ⟨"lib/net6.0/pkg.dll", "bin"⟩,
        ⟨"[Content_Types].xml", "ct"⟩] := by
  have hT := fixNuGetPackageTable_spec entries
  refine ⟨?_, ?_, ?_, by decide⟩
  · have hsub := fixNuGetPackageLoop_sublist (fixNuGetPackageTable entries)
      entries.length 0 [] [] entries.enum
    have hmap := hsub.map Prod.snd
    rw [List.enum_map_snd] at hmap
    exact hmap
  · have hloop := fixNuGetPackageLoop_keeps_other (fixNuGetPackageTable entries)
      entries.length 0 [] [] entries.enum hT
    calc (fixNuGetPackage entries).filter
          (fun e => !(filesToRemove.contains e.entryName))
        = ((fixNuGetPackageLoop (fixNuGetPackageTable entries) entries.length 0 [] []
              entries.enum).filter
            ((fun e => !(filesToRemove.contains e.entryName)) ∘ Prod.snd)).map
            Prod.snd := List.filter_map Prod.snd _
      _ = ((fixNuGetPackageLoop (fixNuGetPackageTable entries) entries.length 0 [] []
              entries.enum).filter
            (fun q => !(filesToRemove.contains q.2.entryName))).map Prod.snd :=
          congrArg (List.map Prod.snd) (List.filter_congr (fun a _ => rfl))
      _ = (entries.enum.filter
            (fun q => !(filesToRemove.contains q.2.entryName))).map Prod.snd := by
          rw [hloop]
      _ = (entries.enum.filter
            ((fun e => !(filesToRemove.contains e.entryName)) ∘ Prod.snd)).map
            Prod.snd :=
          congrArg (List.map Prod.snd) (List.filter_congr (fun a _ => rfl))
      _ = (entries.enum.map Prod.snd).filter
            (fun e => !(filesToRemove.contains e.entryName)) :=
          (List.filter_map Prod.snd _).symm
      _ = entries.filter (fun e => !(filesToRemove.contains e.entryName)) := by
          rw [List.enum_map_snd]
  · intro p _
    have hcount : (entries.enum.filter (fun q => q.2.entryName == p)).length ≤
        ((fixNuGetPackageLoop (fixNuGetPackageTable entries) entries.length 0 [] []
            entries.enum).filter (fun q => q.2.entryName == p)).length + 1 :=
      fixNuGetPackageLoop_count (fixNuGetPackageTable entries) p entries.length 0 [] []
        entries.enum hT
    have hleft : (entries.filter (fun e => e.entryName == p)).length =
        (entries.enum.filter (fun q => q.2.entryName == p)).length := by
      calc (entries.filter (fun e => e.entryName == p)).length
          = ((entries.enum.map Prod.snd).filter (fun e => e.entryName == p)).length := by
            rw [List.enum_map_snd]
        _ = ((entries.enum.filter ((fun e => e.entryName == p) ∘ Prod.snd)).map
              Prod.snd).length := by rw [List.filter_map]
        _ = (entries.enum.filter ((fun e => e.entryName == p) ∘ Prod.snd)).length :=
            List.length_map _ _
        _ = (entries.enum.filter (fun q => q.2.entryName == p)).length :=
            congrArg List.length (List.filter_congr (fun a _ => rfl))
    have hright : ((fixNuGetPackage entries).filter
          (fun e => e.entryName == p)).length =
        ((fixNuGetPackageLoop (fixNuGetPackageTable entries) entries.length 0 [] []
            entries.enum).filter (fun q => q.2.entryName == p)).length := by
      calc ((fixNuGetPackage entries).filter (fun e => e.entryName == p)).length
          = (((fixNuGetPackageLoop (fixNuGetPackageTable entries) entries.length 0 [] []
                entries.enum).filter ((fun e => e.entryName == p) ∘ Prod.snd)).map
              Prod.snd).length := by rw [fixNuGetPackage, List.filter_map]
        _ = ((fixNuGetPackageLoop (fixNuGetPackageTable entries) entries.length 0 [] []
              entries.enum).filter ((fun e => e.entryName == p) ∘ Prod.snd)).length :=
            List.length_map _ _
        _ = ((fixNuGetPackageLoop (fixNuGetPackageTable entries) entries.length 0 [] []
              entries.enum).filter (fun q => q.2.entryName == p)).length :=
            congrArg List.length (List.filter_congr (fun a _ => rfl))
    rw [hleft, hright]
    exact hcount

/-- Witness for C5's theorem: on the three-duplicate archive the scan
removes at most one `_rels/.rels` entry. -/
theorem fixNuGetPackage_spec_witness :
    ([(⟨"_rels/.rels", "rels-a"⟩ : ZipEntry), ⟨"_rels/.rels", "rels-b"⟩,
        ⟨"_rels/.rels", "rels-c"⟩].filter
      (fun e => e.entryName == "_rels/.rels")).length ≤
      ((fixNuGetPackage [⟨"_rels/.rels", "rels-a"⟩, ⟨"_rels/.rels", "rels-b"⟩,
          ⟨"_rels/.rels", "rels-c"⟩]).filter
        (fun e => e.entryName == "_rels/.rels")).length + 1 :=
  (fixNuGetPackage_spec _).2.2.1 "_rels/.rels" (by decide)

/-- Tag references produced from a tag list contain no digest
reference. -/
theorem filter_digest_map_tags (tags : List String) :
    (tags.map (fun tag => (⟨tag, false⟩ : ImageRef))).filter (fun r => r.isDigest) = [] := by
  induction tags with
  | nil => rfl
  | cons t rest ih => simp [ih]

/-- Tag references produced from a tag list all pass the non-digest
filter. -/
theorem filter_not_digest_map_tags (tags : List String) :
    (tags.map (fun tag => (⟨tag, false⟩ : ImageRef))).filter (fun r => !r.isDigest) =
      tags.map (fun tag => (⟨tag, false⟩ : ImageRef)) := by
  induction tags with
  | nil => rfl
  | cons t rest ih => simp [ih]

/-- Projecting the reference out of the tag references returns the tag
list. -/
theorem map_reference_map_tags (tags : List String) :
    (tags.map (fun tag => (⟨tag, false⟩ : ImageRef))).map (fun r => r.reference) = tags := by
  induction tags with
  | nil => rfl
  | cons t rest ih => simp [ih]

/-- The previous lemma in composed-function form (as `simp` leaves it
after fusing the two maps). -/
theorem map_reference_comp_tags (tags : List String) :
    tags.map ((fun r : ImageRef => r.reference) ∘ fun tag => (⟨tag, false⟩ : ImageRef)) =
      tags := by
  induction tags with
  | nil => rfl
  | cons t rest ih => simp [ih]

/-- C6: `parseVersions` yields exactly one digest reference per version
(in order, with `reference` the version's `name` and `isDigest` true)
plus one tag reference per tag in that version's
`metadata.container.tags` (an absent tag list counting as empty), so
the digest references project back to the version names, the tag
references to the concatenated tag lists, and the example version list
expands to exactly 4 references — 2 digests and 2 tags. -/
theorem parseVersions_spec (versions : List ContainerVersion) :
    ((parseVersions versions).filter (fun r => r.isDigest)).map (fun r => r.reference) =
      versions.map (fun v => v.name) ∧
    ((parseVersions versions).filter (fun r => !r.isDigest)).map (fun r => r.reference) =
      versions.flatMap (fun v => v.tags.getD []) ∧
    (parseVersions versions).length =
      versions.length + (versions.map (fun v => (v.tags.getD []).length)).sum ∧
    parseVersions [⟨"sha256:abc", some ["v1", "v2"]⟩, ⟨"sha256:def", some []⟩] =
      [⟨"sha256:abc", true⟩, ⟨"v1", false⟩, ⟨"v2", false⟩, ⟨"sha256:def", true⟩] ∧
    parseVersions [⟨"sha256:untagged", none⟩] = [⟨"sha256:untagged", true⟩] := by
  refine ⟨?_, ?_, ?_, by decide, by decide⟩
  · induction versions with
    | nil => rfl
    | cons v rest ih =>
      simp only [parseVersions, List.flatMap_cons, List.filter_append, List.map_append,
        List.filter_cons, List.map_cons] at ih ⊢
      rw [filter_digest_map_tags]
      simp [ih]
  · induction versions with
    | nil => rfl
    | cons v rest ih =>
      simp only [parseVersions, List.flatMap_cons, List.filter_append, List.map_append,
        List.filter_cons] at ih ⊢
      rw [filter_not_digest_map_tags]
      simp [ih, map_reference_map_tags, map_reference_comp_tags]
  · induction versions with
    | nil => rfl
    | cons v rest ih =>
      simp only [parseVersions, List.flatMap_cons, List.length_append, List.length_cons,
        List.length_map, List.map_cons, List.sum_cons] at ih ⊢
      simp [ih]
      omega

/-- C7: `getRegistryUrl` returns the explicitly supplied custom
registry URL when one is provided; otherwise, for the hostname
`api.github.com` it returns the kind's public default registry host
(`ghcr.io` / `https://npm.pkg.github.com` /
`https://nuget.pkg.github.com`); otherwise it strips a leading `api.`
from the hostname and prefixes the kind-specific subdomain
(`containers.` / `npm.` / `nuget.`, the latter two with the scheme). -/
theorem getRegistryUrl_spec (packageType : PackageType) (hostname custom : String) :
    (custom ≠ "" → getRegistryUrl packageType hostname custom = custom) ∧
    (custom = "" → hostname = "api.github.com" →
      getRegistryUrl packageType hostname custom = defaultRegistryHost packageType) ∧
    (custom = "" → hostname ≠ "api.github.com" →
      getRegistryUrl packageType hostname custom =
        registrySubdomain packageType ++ getBaseHostname hostname) := by
  refine ⟨?_, ?_, ?_⟩
  · intro h
    unfold getRegistryUrl
    rw [if_pos h]
  · intro hc hh
    subst hc
    subst hh
    cases packageType <;> rfl
  · intro hc hne
    subst hc
    have hcustom : ¬ ("" : String) ≠ "" := by simp
    cases packageType
    · show getRegistryUrl PackageType.npm hostname "" = _
      unfold getRegistryUrl getNpmRegistryUrl getBaseHostname registrySubdomain
      rw [if_neg hcustom, if_neg hcustom, if_neg hne]
      by_cases hs : strStartsWith hostname "api." = true
      · rw [if_pos hs, if_pos hs]
      · rw [if_neg hs, if_neg hs]
    · show getRegistryUrl PackageType.nuget hostname "" = _
      unfold getRegistryUrl getNuGetRegistryUrl getBaseHostname registrySubdomain
      rw [if_neg hcustom, if_neg hcustom, if_neg hne]
      by_cases hs : strStartsWith hostname "api." = true
      · rw [if_pos hs, if_pos hs]
      · rw [if_neg hs, if_neg hs]
    · show getRegistryUrl PackageType.container hostname "" = _
      unfold getRegistryUrl registrySubdomain
      rw [if_neg hcustom, if_neg hne]

/-- Witness for C7's theorem: a custom URL wins, the public default is
substituted for `api.github.com`, and a GHES-style hostname gets the
`api.` prefix stripped and the kind subdomain prepended. -/
theorem getRegistryUrl_spec_witness :
    getRegistryUrl PackageType.npm "api.github.com" "https://registry.example" =
      "https://registry.example" ∧
    getRegistryUrl PackageType.container "api.github.com" "" = "ghcr.io" ∧
    getRegistryUrl PackageType.nuget "api.octodemo.com" "" =
      "https://nuget." ++ getBaseHostname "api.octodemo.com" := by
  refine ⟨?_, ?_, ?_⟩
  · exact (getRegistryUrl_spec PackageType.npm "api.github.com"
      "https://registry.example").1 (by decide)
  · exact (getRegistryUrl_spec PackageType.container "api.github.com" "").2.1 rfl rfl
  · exact (getRegistryUrl_spec PackageType.nuget "api.octodemo.com" "").2.2 rfl (by decide)

/-- C9: for a non-empty requested kind, `parsePackagesInput` keeps
exactly the elements whose `type` matches the kind case-insensitively
together with every element whose `type` is absent or falsy (the empty
string); in particular an element with no `type` is kept for any
requested kind. -/
theorem parsePackagesInput_spec (pkgObjects : List PkgInput) (packageType : String)
    (h : packageType ≠ "") :
    (∀ pkg, pkg ∈ parsePackagesInput pkgObjects packageType ↔
      pkg ∈ pkgObjects ∧
        ((∃ t, pkg.type = some t ∧ strToLower t = strToLower packageType) ∨
          pkg.type = none ∨ pkg.type = some "")) ∧
    (∀ pkg ∈ pkgObjects, pkg.type = none →
      pkg ∈ parsePackagesInput pkgObjects packageType) := by
  have hkeep : ∀ pkg : PkgInput,
      ((match pkg.type with
        | some t => strToLower t == strToLower packageType
        | none => false) ||
       (match pkg.type with
        | some t => t == ""
        | none => true)) = true ↔
      ((∃ t, pkg.type = some t ∧ strToLower t = strToLower packageType) ∨
        pkg.type = none ∨ pkg.type = some "") := by
    intro pkg
    cases htype : pkg.type with
    | none => simp
    | some t =>
      simp only [Bool.or_eq_true, beq_iff_eq]
      constructor
      · rintro (hm | he)
        · exact Or.inl ⟨t, rfl, hm⟩
        · subst he
          exact Or.inr (Or.inr rfl)
      · rintro (⟨t', ht', hm⟩ | hn | he)
        · cases ht'
          exact Or.inl hm
        · cases hn
        · cases he
          exact Or.inr rfl
  constructor
  · intro pkg
    rw [parsePackagesInput, if_pos h, List.mem_filter]
    exact and_congr Iff.rfl (hkeep pkg)
  · intro pkg hmem htype
    rw [parsePackagesInput, if_pos h, List.mem_filter]
    refine ⟨hmem, ?_⟩
    simp [htype]

/-- Witness for C9's theorem: a package object with no `type` field is
accepted by all three kind-specific filters. -/
theorem parsePackagesInput_spec_witness :
    (⟨"lib", none⟩ : PkgInput) ∈
      parsePackagesInput [⟨"lib", none⟩, ⟨"img", some "container"⟩] "npm" ∧
    (⟨"lib", none⟩ : PkgInput) ∈ parsePackagesInput [⟨"lib", none⟩] "nuget" ∧
    (⟨"lib", none⟩ : PkgInput) ∈ parsePackagesInput [⟨"lib", none⟩] "container" := by
  refine ⟨?_, ?_, ?_⟩
  · exact (parsePackagesInput_spec [⟨"lib", none⟩, ⟨"img", some "container"⟩] "npm"
      (by decide)).2 ⟨"lib", none⟩ (List.mem_cons_self _ _) rfl
  · exact (parsePackagesInput_spec [⟨"lib", none⟩] "nuget"
      (by decide)).2 ⟨"lib", none⟩ (List.mem_cons_self _ _) rfl
  · exact (parsePackagesInput_spec [⟨"lib", none⟩] "container"
      (by decide)).2 ⟨"lib", none⟩ (List.mem_cons_self _ _) rfl

/-- When `rmSync` raises no I/O error, `cleanupResource` removes the
path from disk (a no-op when already gone) and from the tracked set. -/
theorem cleanupResource_ok_of_not_fails (rmFails : String → Bool) (st : TrackerState)
    (p : String) (h : rmFails p = false) :
    cleanupResource rmFails st p =
      Except.ok ⟨st.disk.filter (fun q => q != p), st.tracked.filter (fun q => q != p)⟩ := by
  unfold cleanupResource
  by_cases hd : st.disk.contains p = true
  · rw [if_pos hd, h]
    simp only [Bool.false_eq_true, if_false]
  · rw [if_neg hd]
    have hfix : st.disk.filter (fun q => q != p) = st.disk := by
      apply List.filter_eq_self.mpr
      intro q hq
      refine bne_iff_ne.mpr ?_
      intro heq
      exact hd (List.elem_eq_true_of_mem (heq ▸ hq))
    rw [hfix]

/-- When no removal raises an I/O error, the cleanup loop over a path
list removes exactly those paths from both the disk and the tracked
set. -/
theorem cleanupAllResourcesGo_ok (rmFails : String → Bool) (h : ∀ p, rmFails p = false) :
    ∀ (l : List String) (st : TrackerState),
    cleanupAllResourcesGo rmFails l st =
      Except.ok ⟨st.disk.filter (fun q => !(l.contains q)),
        st.tracked.filter (fun q => !(l.contains q))⟩ := by
  intro l
  induction l with
  | nil =>
    intro st
    simp [cleanupAllResourcesGo]
  | cons p rest ih =>
    intro st
    have hstep : cleanupAllResourcesGo rmFails (p :: rest) st =
        match cleanupResource rmFails st p with
        | Except.error e => Except.error e
        | Except.ok st' => cleanupAllResourcesGo rmFails rest st' := rfl
    rw [hstep, cleanupResource_ok_of_not_fails rmFails st p (h p)]
    show cleanupAllResourcesGo rmFails rest _ = _
    rw [ih]
    have hcomb : ∀ m : List String,
        (m.filter (fun q => q != p)).filter (fun q => !(rest.contains q)) =
          m.filter (fun q => !((p :: rest).contains q)) := by
      intro m
      rw [List.filter_filter]
      apply List.filter_congr
      intro a _
      simp only [bne, List.contains_cons]
      cases h1 : a == p <;> cases h2 : rest.contains a <;> rfl
    rw [hcomb, hcomb]

/-- C8 counterexample: an I/O error thrown by the filesystem removal
propagates out of `cleanupResource` — there is no try/catch and no
logging around `fs.rmSync` — and through `cleanupAllResources`, whose
loop it aborts, so the release can fail its caller. -/
theorem cleanupResource_propagates_io_error :
    cleanupResource (fun _ => true) ⟨["/tmp/npm-work"], ["/tmp/npm-work"]⟩ "/tmp/npm-work" =
      Except.error "EACCES: /tmp/npm-work" ∧
    cleanupAllResources (fun _ => true) ⟨["/tmp/npm-work"], ["/tmp/npm-work"]⟩ =
      Except.error "EACCES: /tmp/npm-work" := ⟨rfl, rfl⟩

/-- C8 (amended): `cleanupResource` tolerates already-gone paths (it
still removes them from the tracked set), and when no filesystem
removal raises an I/O error, `cleanupAllResources` succeeds, leaves the
tracked set empty, and leaves no previously tracked path on disk; an
I/O error during a removal, however, propagates to the caller instead
of being caught and logged. -/
theorem cleanupAllResources_spec (rmFails : String → Bool) (st : TrackerState)
    (h : ∀ p, rmFails p = false) :
    (∀ (rmFails2 : String → Bool) (p : String), st.disk.contains p = false →
      cleanupResource rmFails2 st p =
        Except.ok ⟨st.disk, st.tracked.filter (fun q => q != p)⟩) ∧
    (∃ st', cleanupAllResources rmFails st = Except.ok st' ∧
      st'.tracked = [] ∧
      (∀ p, p ∈ st.tracked → st'.disk.contains p = false)) := by
  constructor
  · intro rmFails2 p hd
    unfold cleanupResource
    rw [if_neg (by rw [hd]; exact Bool.false_ne_true)]
  · refine ⟨⟨st.disk.filter (fun q => !(st.tracked.contains q)),
      st.tracked.filter (fun q => !(st.tracked.contains q))⟩, ?_, ?_, ?_⟩
    · exact cleanupAllResourcesGo_ok rmFails h st.tracked st
    · apply List.filter_eq_nil_iff.mpr
      intro q hq
      have hc : st.tracked.contains q = true := List.elem_eq_true_of_mem hq
      rw [hc]
      simp
    · intro p hp
      by_contra hcon
      have htrue : (st.disk.filter (fun q => !(st.tracked.contains q))).contains p = true :=
        eq_true_of_ne_false hcon
      have hmem := List.mem_of_elem_eq_true htrue
      have hpred := (List.mem_filter.mp hmem).2
      have hc : st.tracked.contains p = true := List.elem_eq_true_of_mem hp
      rw [hc] at hpred
      simp at hpred

/-- Witness for C8's theorem: a tracker holding one live path and one
already-gone path is fully drained when removal succeeds. -/
theorem cleanupAllResources_spec_witness :
    cleanupResource (fun _ => false) ⟨["/tmp/live"], ["/tmp/live", "/tmp/gone"]⟩
        "/tmp/gone" =
      Except.ok ⟨["/tmp/live"], ["/tmp/live"]⟩ ∧
    (∃ st', cleanupAllResources (fun _ => false)
        ⟨["/tmp/live"], ["/tmp/live", "/tmp/gone"]⟩ = Except.ok st' ∧
      st'.tracked = [] ∧
      (∀ p, p ∈ ["/tmp/live", "/tmp/gone"] → st'.disk.contains p = false)) := by
  have h := cleanupAllResources_spec (fun _ => false)
    ⟨["/tmp/live"], ["/tmp/live", "/tmp/gone"]⟩ (fun _ => rfl)
  refine ⟨?_, h.2⟩
  have h1 := h.1 (fun _ => false) "/tmp/gone" rfl
  rw [h1]
  rfl

/-- C4 counterexample: in the `package.js` variant of
`processPackageVersion`, an authentication failure thrown by the
manifest fetch is caught by the surrounding try/catch and converted to
`false` — it is not rethrown to the wrapping Retry Executor. -/
theorem processPackageVersionCaught_swallows_auth :
    processPackageVersionCaught authFailWorld "1.0.0" = Except.ok false ∧
    (processPackageVersionCaught authFailWorld "1.0.0").isOk = true := ⟨rfl, rfl⟩

/-- C4 (amended): in every variant a version key absent from the
manifest makes the transfer return `false` rather than throw; in the
src/unnamed/part_013 variant (no try/catch) an error thrown by the
manifest fetch or by the download propagates out to the wrapping Retry
Executor, while the `package.js`/part_012 variant catches every thrown
error and returns `false`, never throwing. -/
theorem processPackageVersion_spec (w : NpmWorld) (versionName : String) :
    (∀ versions, w.manifestResp = Except.ok versions → versions versionName = none →
      processPackageVersion w versionName = Except.ok false ∧
      processPackageVersionCaught w versionName = Except.ok false) ∧
    (∀ e, w.manifestResp = Except.error e →
      processPackageVersion w versionName = Except.error e) ∧
    (∀ versions url e, w.manifestResp = Except.ok versions →
      versions versionName = some url → w.downloadResp url = Except.error e →
      processPackageVersion w versionName = Except.error e) ∧
    (∀ e, processPackageVersionCaught w versionName ≠ Except.error e) := by
  refine ⟨?_, ?_, ?_, ?_⟩
  · intro versions hm hv
    constructor
    · simp [processPackageVersion, fetchPackageManifest, hm, hv]
    · simp [processPackageVersionCaught, fetchPackageManifest, hm, hv]
  · intro e hm
    simp [processPackageVersion, fetchPackageManifest, hm]
  · intro versions url e hm hv hd
    simp [processPackageVersion, fetchPackageManifest, hm, hv, hd]
  · intro e
    cases hm : w.manifestResp with
    | error e' => simp [processPackageVersionCaught, fetchPackageManifest, hm]
    | ok versions =>
      cases hv : versions versionName with
      | none => simp [processPackageVersionCaught, fetchPackageManifest, hm, hv]
      | some url =>
        cases hd : w.downloadResp url with
        | error e' =>
          simp [processPackageVersionCaught, fetchPackageManifest, hm, hv, hd]
        | ok u => simp [processPackageVersionCaught, fetchPackageManifest, hm, hv, hd]

/-- Witness for C4's theorem: a manifest without the requested version
produces `false` in both variants, and a 503 during the manifest fetch
propagates out of the part_013 variant. -/
theorem processPackageVersion_spec_witness :
    processPackageVersion ⟨Except.ok (fun _ => none), fun _ => Except.ok (), true⟩
        "1.1.0" = Except.ok false ∧
    processPackageVersion
        ⟨Except.error ⟨ErrClass.other, "Request failed with status code 503"⟩,
          fun _ => Except.ok (), true⟩ "1.0.0" =
      Except.error ⟨ErrClass.other, "Request failed with status code 503"⟩ := by
  constructor
  · exact ((processPackageVersion_spec
      ⟨Except.ok (fun _ => none), fun _ => Except.ok (), true⟩ "1.1.0").1
      (fun _ => none) rfl rfl).1
  · exact (processPackageVersion_spec
      ⟨Except.error ⟨ErrClass.other, "Request failed with status code 503"⟩,
        fun _ => Except.ok (), true⟩ "1.0.0").2.1
      ⟨ErrClass.other, "Request failed with status code 503"⟩ rfl

/-- `listStartsWith` decides the prefix relation. -/
theorem listStartsWith_iff (pat : List Char) :
    ∀ s : List Char, listStartsWith s pat = true ↔ pat <+: s := by
  induction pat with
  | nil =>
    intro s
    constructor
    · intro _
      exact ⟨s, rfl⟩
    · intro _
      cases s <;> rfl
  | cons p ps ih =>
    intro s
    cases s with
    | nil =>
      constructor
      · intro h
        cases h
      · intro h
        exact absurd (List.eq_nil_of_prefix_nil h) (by simp)
    | cons c s' =>
      rw [show listStartsWith (c :: s') (p :: ps) = (c == p && listStartsWith s' ps)
          from rfl,
        List.cons_prefix_cons, Bool.and_eq_true, beq_iff_eq, ih s']
      constructor
      · rintro ⟨h1, h2⟩
        exact ⟨h1.symm, h2⟩
      · rintro ⟨h1, h2⟩
        exact ⟨h1.symm, h2⟩

/-- `strFindSub` returns `none` exactly when the pattern does not occur
in the string. -/
theorem strFindSub_none_iff (pat : List Char) :
    ∀ s : List Char, strFindSub pat s = none ↔ ¬ pat <:+: s := by
  intro s
  induction s with
  | nil =>
    by_cases hs : listStartsWith [] pat = true
    · have hp : pat <+: ([] : List Char) := (listStartsWith_iff pat []).mp hs
      have hinf : pat <:+: ([] : List Char) := hp.isInfix
      simp only [strFindSub, if_pos hs]
      simp [hinf]
    · simp only [strFindSub, if_neg hs]
      have hnp : ¬ pat <+: ([] : List Char) :=
        fun hp => hs ((listStartsWith_iff pat []).mpr hp)
      simp only [true_iff]
      rw [List.infix_nil]
      intro heq
      subst heq
      exact hnp ⟨[], rfl⟩
  | cons c rest ih =>
    by_cases hs : listStartsWith (c :: rest) pat = true
    · have hinf : pat <:+: (c :: rest) :=
        ((listStartsWith_iff pat (c :: rest)).mp hs).isInfix
      simp only [strFindSub, if_pos hs]
      simp [hinf]
    · have hnp : ¬ pat <+: (c :: rest) :=
        fun hp => hs ((listStartsWith_iff pat (c :: rest)).mpr hp)
      simp only [strFindSub, if_neg hs]
      rw [Option.map_eq_none', ih, List.infix_cons_iff]
      tauto

/-- When `strFindSub` finds index `i`, the pattern occurs at `i` and at
no earlier index — `i` is the first occurrence. -/
theorem strFindSub_some_spec (pat : List Char) :
    ∀ (s : List Char) (i : Nat), strFindSub pat s = some i →
    listStartsWith (s.drop i) pat = true ∧
      ∀ j, j < i → listStartsWith (s.drop j) pat = false := by
  intro s
  induction s with
  | nil =>
    intro i h
    by_cases hs : listStartsWith [] pat = true
    · simp only [strFindSub, if_pos hs] at h
      injection h with h'
      subst h'
      exact ⟨hs, fun j hj => absurd hj (Nat.not_lt_zero j)⟩
    · simp only [strFindSub, if_neg hs] at h
      cases h
  | cons c rest ih =>
    intro i h
    by_cases hs : listStartsWith (c :: rest) pat = true
    · simp only [strFindSub, if_pos hs] at h
      injection h with h'
      subst h'
      exact ⟨hs, fun j hj => absurd hj (Nat.not_lt_zero j)⟩
    · simp only [strFindSub, if_neg hs] at h
      cases hrec : strFindSub pat rest with
      | none =>
        rw [hrec] at h
        cases h
      | some i' =>
        rw [hrec] at h
        simp only [Option.map_some'] at h
        injection h with h'
        subst h'
        obtain ⟨h1, h2⟩ := ih i' hrec
        refine ⟨h1, ?_⟩
        intro j hj
        cases j with
        | zero => exact eq_false_of_ne_true hs
        | succ j' => exact h2 j' (Nat.lt_of_succ_lt_succ hj)

/-- `jsReplaceFirst` leaves the string unchanged when the pattern does
not occur. -/
theorem jsReplaceFirst_of_none (s pat rep : String)
    (h : strFindSub pat.data s.data = none) : jsReplaceFirst s pat rep = s := by
  unfold jsReplaceFirst
  rw [h]

/-- `jsReplaceFirst` splices the replacement over the found occurrence. -/
theorem jsReplaceFirst_of_some (s pat rep : String) (i : Nat)
    (h : strFindSub pat.data s.data = some i) :
    jsReplaceFirst s pat rep =
      String.mk (s.data.take i ++ rep.data ++ s.data.drop (i + pat.data.length)) := by
  unfold jsReplaceFirst
  rw [h]

/-- `updateRepositoryDetails` only touches the `repository` field: the
`name` and the remaining fields pass through unchanged. -/
theorem updateRepositoryDetails_preserves (pkgJson : PkgJson)
    (repoName targetOrg targetApiHostname : String) :
    (updateRepositoryDetails pkgJson repoName targetOrg targetApiHostname).name =
      pkgJson.name ∧
    (updateRepositoryDetails pkgJson repoName targetOrg targetApiHostname).extra =
      pkgJson.extra := by
  unfold updateRepositoryDetails
  cases hr : pkgJson.repository with
  | none => cases hx : extractRepoName repoName "" <;> simp [hx]
  | some rf =>
    cases rf with
    | str s => cases hx : extractRepoName repoName s <;> simp [hx]
    | obj rtype rurl => cases hx : extractRepoName repoName (rurl.getD "") <;> simp [hx]

/-- `updatePackageMetadata` writes back exactly
`updatePackageName pkgJson.name` as the name and leaves the fields
other than `name`/`repository` unchanged. -/
theorem updatePackageMetadata_fields (pkgJson : PkgJson)
    (sourceOrg targetOrg targetApiHostname repoName : String) :
    (updatePackageMetadata pkgJson sourceOrg targetOrg targetApiHostname repoName).name =
      updatePackageName pkgJson.name sourceOrg targetOrg ∧
    (updatePackageMetadata pkgJson sourceOrg targetOrg targetApiHostname repoName).extra =
      pkgJson.extra := by
  unfold updatePackageMetadata
  dsimp only
  split_ifs with hc
  · have h := updateRepositoryDetails_preserves
      { pkgJson with name := updatePackageName pkgJson.name sourceOrg targetOrg }
      repoName targetOrg targetApiHostname
    exact ⟨h.1, h.2⟩
  · exact ⟨rfl, rfl⟩

/-- C10: `updatePackageMetadata` rewrites the package name by replacing
only the first occurrence of the literal substring `@<sourceOrg>/` with
`@<targetOrg>/` (the characters before the first occurrence and after
the replaced occurrence are untouched, and no earlier index carries the
pattern); when the name does not contain that substring it is written
back unchanged; fields other than `name` and `repository` are never
modified. -/
theorem updatePackageMetadata_name_spec (pkgJson : PkgJson)
    (sourceOrg targetOrg targetApiHostname repoName : String) :
    (updatePackageMetadata pkgJson sourceOrg targetOrg targetApiHostname repoName).name =
      updatePackageName pkgJson.name sourceOrg targetOrg ∧
    (updatePackageMetadata pkgJson sourceOrg targetOrg targetApiHostname repoName).extra =
      pkgJson.extra ∧
    (¬ ("@" ++ sourceOrg ++ "/").data <:+: pkgJson.name.data →
      (updatePackageMetadata pkgJson sourceOrg targetOrg targetApiHostname
        repoName).name = pkgJson.name) ∧
    (∀ i, strFindSub ("@" ++ sourceOrg ++ "/").data pkgJson.name.data = some i →
      (updatePackageMetadata pkgJson sourceOrg targetOrg targetApiHostname
          repoName).name =
        String.mk (pkgJson.name.data.take i ++ ("@" ++ targetOrg ++ "/").data ++
          pkgJson.name.data.drop (i + ("@" ++ sourceOrg ++ "/").data.length)) ∧
      (∀ j, j < i →
        listStartsWith (pkgJson.name.data.drop j) ("@" ++ sourceOrg ++ "/").data =
          false)) := by
  obtain ⟨hname, hextra⟩ := updatePackageMetadata_fields pkgJson sourceOrg targetOrg
    targetApiHostname repoName
  refine ⟨hname, hextra, ?_, ?_⟩
  · intro hnot
    rw [hname, updatePackageName]
    exact jsReplaceFirst_of_none pkgJson.name ("@" ++ sourceOrg ++ "/")
      ("@" ++ targetOrg ++ "/")
      ((strFindSub_none_iff ("@" ++ sourceOrg ++ "/").data pkgJson.name.data).mpr hnot)
  · intro i hi
    refine ⟨?_, (strFindSub_some_spec ("@" ++ sourceOrg ++ "/").data
      pkgJson.name.data i hi).2⟩
    rw [hname, updatePackageName]
    exact jsReplaceFirst_of_some pkgJson.name ("@" ++ sourceOrg ++ "/")
      ("@" ++ targetOrg ++ "/") i hi

/-- Witness for C10's theorem: an unscoped name (`left-pad`) and a name
scoped to a different organization are republished under their original
names, and a name containing the source scope twice has only the first
occurrence replaced. -/
theorem updatePackageMetadata_name_spec_witness :
    (updatePackageMetadata ⟨"left-pad", none, [("version", "1.0.0")]⟩
      "acme" "tgt-org" "api.github.com" "").name = "left-pad" ∧
    (updatePackageMetadata ⟨"@other/lib", none, []⟩
      "acme" "tgt-org" "api.github.com" "").name = "@other/lib" ∧
    (updatePackageMetadata ⟨"@acme/a@acme/b", none, []⟩
      "acme" "tgt" "api.github.com" "").name = "@tgt/a@acme/b" := by
  refine ⟨?_, ?_, ?_⟩
  · exact (updatePackageMetadata_name_spec ⟨"left-pad", none, [("version", "1.0.0")]⟩
      "acme" "tgt-org" "api.github.com" "").2.2.1
      ((strFindSub_none_iff _ _).mp (by decide))
  · exact (updatePackageMetadata_name_spec ⟨"@other/lib", none, []⟩
      "acme" "tgt-org" "api.github.com" "").2.2.1
      ((strFindSub_none_iff _ _).mp (by decide))
  · exact (((updatePackageMetadata_name_spec ⟨"@acme/a@acme/b", none, []⟩
      "acme" "tgt" "api.github.com" "").2.2.2 0 (by decide)).1).trans (by decide)
